import Mathlib

set_option maxRecDepth 4000

/-!
Verification development for the FantasyWritingApp repair scripts.

The repository consists of three Python scripts (`fix_string_literals.py`,
`fix_all_syntax.py`, `fix_final_syntax.py`) that apply a fixed, ordered list
of regular-expression substitutions to a text buffer, plus a package
metadata stub (`superclaude/__init__.py`).

This file gives a shallow embedding of that code:

* text buffers are `List Char`;
* each regular expression of the source is transliterated into a small
  regex AST (`RElem`) whose quantifiers range over single-character
  classes only (which covers every pattern in the scripts), and matched
  by a backtracking matcher `matchSeq` with Python's priority order
  (greedy quantifiers try the longest take first, lazy the shortest,
  leftmost match wins);
* `pySub` models `re.sub` (global, leftmost, non-overlapping, scanning
  resumes after each match);
* `pyReplace` models `str.replace`, `pyStrip` models `str.strip`,
  `splitNl`/`joinNl` model `str.split('\n')` / `'\n'.join`;
* the per-file driver `process_file` (textually identical in the three
  scripts up to the fix function) and the loop of `fix_all_syntax.main`
  are modelled over an explicit file-system state, with a raised and
  caught exception modelled as a failed read / non-writable path.
-/

/-- Python's `\s` whitespace class (ASCII part). -/
def isSpc (c : Char) : Bool :=
  c = ' ' || c = '\t' || c = '\n' || c = '\r' || c = '\x0b' || c = '\x0c'

/-- Python's `\w` word class (ASCII part). -/
def isWord (c : Char) : Bool := c.isAlphanum || c = '_'

/-- The class `[\w#]` of `fix_all_syntax.py`. -/
def isWordHash (c : Char) : Bool := isWord c || c = '#'

/-- The class `['\"]` (a single or double quote). -/
def isQuote (c : Char) : Bool := c = '\'' || c = '"'

/-- The class `[^']`. -/
def notSq (c : Char) : Bool := !(c = '\'')

/-- The class `[^'\"]`. -/
def notQuote2 (c : Char) : Bool := !(c = '\'' || c = '"')

/-- The class `[^:]`. -/
def notColon (c : Char) : Bool := !(c = ':')

/-- The marker comment all three scripts revolve around. -/
def mark : List Char := "// ! HARDCODED: Should use design tokens".data

/-- The shorter literal required by Pattern 7 of `fix_all_patterns`
(`// ! HARDCODED` without the tail), a prefix of `mark`. -/
def markShort : List Char := "// ! HARDCODED".data

/-- One element of a transliterated regular expression.  Quantifiers are
restricted to single-character classes, and capture groups are delimited
by `gopen`/`gclose` markers (no pattern of the source nests groups). -/
inductive RElem where
  /-- a literal run of characters -/
  | lit : List Char → RElem
  /-- a single character of a class -/
  | cls : (Char → Bool) → RElem
  /-- `p*` (greedy when the flag is `true`) or `p*?` -/
  | star : Bool → (Char → Bool) → RElem
  /-- `p+` (greedy when the flag is `true`) or `p+?` -/
  | plus : Bool → (Char → Bool) → RElem
  /-- an optional literal character, `c?` (greedy) -/
  | optc : Char → RElem
  /-- opening of capture group `i` -/
  | gopen : Nat → RElem
  /-- closing of the pending capture group -/
  | gclose : RElem

/-- One piece of a `re.sub` replacement template: a literal or a
backreference `\i`. -/
inductive TPart where
  | lit : List Char → TPart
  | grp : Nat → TPart

/-- Length of the maximal prefix of `s` whose characters satisfy `p`
(the most a quantifier over the class `p` can consume). -/
def countSat (p : Char → Bool) : List Char → Nat
  | [] => 0
  | c :: s => if p c then countSat p s + 1 else 0

/-- First success of `f` over the candidate list, in order: the
backtracking priority order of a quantifier. -/
def firstSome (ns : List Nat) (f : Nat → Option α) : Option α :=
  match ns with
  | [] => none
  | n :: ns => match f n with
    | some r => some r
    | none => firstSome ns f

/-- Candidate take-lengths for `p*` on a maximal run of length `m`:
greedy tries `m, m-1, …, 0`, lazy tries `0, 1, …, m`. -/
def starRange (g : Bool) (m : Nat) : List Nat :=
  if g then (List.range (m + 1)).reverse else List.range (m + 1)

/-- Candidate take-lengths for `p+`: greedy `m, …, 1`, lazy `1, …, m`. -/
def plusRange (g : Bool) (m : Nat) : List Nat :=
  if g then (List.range' 1 m).reverse else List.range' 1 m

/-- Captured groups: association list from group index to captured text. -/
abbrev Caps := List (Nat × List Char)

/-- Backtracking matcher for a transliterated pattern, anchored at the
start of `s`, in continuation-passing style.  `pend` holds the index and
the suffix at the pending `gopen`; `acc` the closed captures.  The
continuation `k` receives the captures and the remaining suffix.  The
order in which alternatives are tried is exactly Python's backtracking
order for these patterns. -/
def matchSeq : List RElem → List Char → Option (Nat × List Char) → Caps →
    (Caps → List Char → Option (Caps × List Char)) → Option (Caps × List Char)
  | [], s, _, acc, k => k acc s
  | RElem.lit l :: r, s, pend, acc, k =>
    if l.isPrefixOf s then matchSeq r (s.drop l.length) pend acc k else none
  | RElem.cls p :: r, s, pend, acc, k =>
    match s with
    | [] => none
    | a :: s2 => if p a then matchSeq r s2 pend acc k else none
  | RElem.star g p :: r, s, pend, acc, k =>
    firstSome (starRange g (countSat p s)) fun n => matchSeq r (s.drop n) pend acc k
  | RElem.plus g p :: r, s, pend, acc, k =>
    firstSome (plusRange g (countSat p s)) fun n => matchSeq r (s.drop n) pend acc k
  | RElem.optc a :: r, s, pend, acc, k =>
    match s with
    | [] => matchSeq r s pend acc k
    | b :: s2 =>
      if b = a then
        match matchSeq r s2 pend acc k with
        | some out => some out
        | none => matchSeq r s pend acc k
      else matchSeq r s pend acc k
  | RElem.gopen i :: r, s, _, acc, k => matchSeq r s (some (i, s)) acc k
  | RElem.gclose :: r, s, pend, acc, k =>
    match pend with
    | some (j, s0) => matchSeq r s none (acc ++ [(j, s0.take (s0.length - s.length))]) k
    | none => none

/-- Leftmost match of the pattern in `s`: the unmatched prefix, the
captures, and the suffix after the match (Python scans start positions
left to right). -/
def findMatch (r : List RElem) : List Char → Option (List Char × Caps × List Char)
  | [] =>
    match matchSeq r [] none [] (fun a t => some (a, t)) with
    | some (acc, rest) => some ([], acc, rest)
    | none => none
  | c :: s2 =>
    match matchSeq r (c :: s2) none [] (fun a t => some (a, t)) with
    | some (acc, rest) => some ([], acc, rest)
    | none => (findMatch r s2).map fun x => (c :: x.1, x.2.1, x.2.2)

/-- Value of capture group `i` (empty when absent). -/
def lookupCap (acc : Caps) (i : Nat) : List Char :=
  match acc.find? (fun x => x.1 == i) with
  | some x => x.2
  | none => []

/-- Expansion of a `re.sub` replacement template against the captures. -/
def expand : List TPart → Caps → List Char
  | [], _ => []
  | TPart.lit l :: t, acc => l ++ expand t acc
  | TPart.grp i :: t, acc => lookupCap acc i ++ expand t acc

/-- Fueled global substitution: replace the leftmost match, resume after
it, repeat.  On a zero-length match Python substitutes and then advances
one character; no pattern of the source can match the empty string, but
the branch keeps the model total and faithful. -/
def subN (r : List RElem) (t : List TPart) : Nat → List Char → List Char
  | 0, s => s
  | fuel + 1, s =>
    match findMatch r s with
    | none => s
    | some (pre, acc, rest) =>
      if s.length - pre.length - rest.length = 0 then
        pre ++ expand t acc ++
          (match rest with
           | [] => []
           | c :: rs => c :: subN r t fuel rs)
      else pre ++ expand t acc ++ subN r t fuel rest

/-- `re.sub(pattern, replacement, s)`: every step consumes at least one
character, so `s.length + 1` units of fuel always suffice. -/
def pySub (r : List RElem) (t : List TPart) (s : List Char) : List Char :=
  subN r t (s.length + 1) s

/-- Fueled core of `str.replace` (all occurrences, left to right,
non-overlapping). -/
def replaceAll (pat rep : List Char) : Nat → List Char → List Char
  | 0, s => s
  | fuel + 1, s =>
    if pat.isPrefixOf s ∧ pat ≠ [] then rep ++ replaceAll pat rep fuel (s.drop pat.length)
    else
      match s with
      | [] => []
      | c :: s2 => c :: replaceAll pat rep fuel s2

/-- `s.replace(pat, rep)`. -/
def pyReplace (pat rep s : List Char) : List Char := replaceAll pat rep s.length s

/-- `s.strip()`: leading and trailing whitespace removed. -/
def pyStrip (s : List Char) : List Char :=
  ((s.dropWhile isSpc).reverse.dropWhile isSpc).reverse

/-- `s.split('\n')`. -/
def splitNl : List Char → List (List Char)
  | [] => [[]]
  | c :: s =>
    if c = '\n' then [] :: splitNl s
    else
      match splitNl s with
      | [] => [[c]]
      | l :: ls => (c :: l) :: ls

/-- `'\n'.join(lines)`. -/
def joinNl : List (List Char) → List Char
  | [] => []
  | [l] => l
  | l :: ls => l ++ '\n' :: joinNl ls

/-! ### The patterns of `fix_string_literals.py` (lines 16–37) -/

/-- Pattern 1: `'([^']*?)(\s*)// ! HARDCODED: Should use design tokens\s*\n\s*([^']*?)'`. -/
def sl1pat : List RElem :=
  [RElem.lit "'".data, RElem.gopen 1, RElem.star false notSq, RElem.gclose,
   RElem.gopen 2, RElem.star true isSpc, RElem.gclose, RElem.lit mark,
   RElem.star true isSpc, RElem.lit "\n".data, RElem.star true isSpc,
   RElem.gopen 3, RElem.star false notSq, RElem.gclose, RElem.lit "'".data]

/-- Replacement 1: `'\1 \3' // ! HARDCODED: Should use design tokens`. -/
def sl1rep : List TPart :=
  [TPart.lit "'".data, TPart.grp 1, TPart.lit " ".data, TPart.grp 3,
   TPart.lit ("' ".data ++ mark)]

/-- Pattern 2: `'([^']*?)\s*// ! HARDCODED: Should use design tokens([^']*?)'`. -/
def sl2pat : List RElem :=
  [RElem.lit "'".data, RElem.gopen 1, RElem.star false notSq, RElem.gclose,
   RElem.star true isSpc, RElem.lit mark,
   RElem.gopen 2, RElem.star false notSq, RElem.gclose, RElem.lit "'".data]

/-- Replacement 2: `'\1\2' // ! HARDCODED: Should use design tokens`. -/
def sl2rep : List TPart :=
  [TPart.lit "'".data, TPart.grp 1, TPart.grp 2, TPart.lit ("' ".data ++ mark)]

/-- Pattern 3: `'([^']*?)\n\s*([^']*?)// ! HARDCODED: Should use design tokens([^']*?)'`. -/
def sl3pat : List RElem :=
  [RElem.lit "'".data, RElem.gopen 1, RElem.star false notSq, RElem.gclose,
   RElem.lit "\n".data, RElem.star true isSpc,
   RElem.gopen 2, RElem.star false notSq, RElem.gclose, RElem.lit mark,
   RElem.gopen 3, RElem.star false notSq, RElem.gclose, RElem.lit "'".data]

/-- Replacement 3: `'\1 \2\3' // ! HARDCODED: Should use design tokens`. -/
def sl3rep : List TPart :=
  [TPart.lit "'".data, TPart.grp 1, TPart.lit " ".data, TPart.grp 2, TPart.grp 3,
   TPart.lit ("' ".data ++ mark)]

/-- `fix_string_literals` of `fix_string_literals.py`: the three
substitutions applied in order to the evolving buffer. -/
def fix_string_literals (content : List Char) : List Char :=
  pySub sl3pat sl3rep (pySub sl2pat sl2rep (pySub sl1pat sl1rep content))

/-! ### The patterns of `fix_all_syntax.py`, `fix_syntax_errors` (lines 11–53) -/

/-- Pattern 1: `(\s+)([\w]+):\s*(['\"][\w#]+['\"])\s*// ! HARDCODED: Should use design tokens,`. -/
def se1pat : List RElem :=
  [RElem.gopen 1, RElem.plus true isSpc, RElem.gclose,
   RElem.gopen 2, RElem.plus true isWord, RElem.gclose,
   RElem.lit ":".data, RElem.star true isSpc,
   RElem.gopen 3, RElem.cls isQuote, RElem.plus true isWordHash, RElem.cls isQuote, RElem.gclose,
   RElem.star true isSpc, RElem.lit (mark ++ ",".data)]

/-- Replacement 1: `\1\2: \3, // ! HARDCODED: Should use design tokens`. -/
def se1rep : List TPart :=
  [TPart.grp 1, TPart.grp 2, TPart.lit ": ".data, TPart.grp 3, TPart.lit (", ".data ++ mark)]

/-- Pattern 2: `,\s*([\w]+):\s*(['\"][\w#]+['\"])\s*// ! HARDCODED: Should use design tokens,`. -/
def se2pat : List RElem :=
  [RElem.lit ",".data, RElem.star true isSpc,
   RElem.gopen 1, RElem.plus true isWord, RElem.gclose,
   RElem.lit ":".data, RElem.star true isSpc,
   RElem.gopen 2, RElem.cls isQuote, RElem.plus true isWordHash, RElem.cls isQuote, RElem.gclose,
   RElem.star true isSpc, RElem.lit (mark ++ ",".data)]

/-- Replacement 2: `,\n    \1: \2, // ! HARDCODED: Should use design tokens`. -/
def se2rep : List TPart :=
  [TPart.lit ",\n    ".data, TPart.grp 1, TPart.lit ": ".data, TPart.grp 2,
   TPart.lit (", ".data ++ mark)]

/-- Pattern 3: `\{\s*([\w]+):\s*(['\"][\w#]+['\"])\s*M,\s*([\w]+):\s*(['\"][\w#]+['\"])\s*M,`
(`M` the marker). -/
def se3pat : List RElem :=
  [RElem.lit "\x7b".data, RElem.star true isSpc,
   RElem.gopen 1, RElem.plus true isWord, RElem.gclose,
   RElem.lit ":".data, RElem.star true isSpc,
   RElem.gopen 2, RElem.cls isQuote, RElem.plus true isWordHash, RElem.cls isQuote, RElem.gclose,
   RElem.star true isSpc, RElem.lit (mark ++ ",".data), RElem.star true isSpc,
   RElem.gopen 3, RElem.plus true isWord, RElem.gclose,
   RElem.lit ":".data, RElem.star true isSpc,
   RElem.gopen 4, RElem.cls isQuote, RElem.plus true isWordHash, RElem.cls isQuote, RElem.gclose,
   RElem.star true isSpc, RElem.lit (mark ++ ",".data)]

/-- Replacement 3: `{\n    \1: \2, M\n    \3: \4, M`. -/
def se3rep : List TPart :=
  [TPart.lit "\x7b\n    ".data, TPart.grp 1, TPart.lit ": ".data, TPart.grp 2,
   TPart.lit (", ".data ++ mark ++ "\n    ".data), TPart.grp 3, TPart.lit ": ".data,
   TPart.grp 4, TPart.lit (", ".data ++ mark)]

/-- Pattern 4 of `fix_syntax_errors` and Pattern 6 of `fix_all_patterns`
(the same regex in both scripts):
`// ! HARDCODED: Should use design tokens\s*// ! HARDCODED: Should use design tokens`. -/
def dedupPat : List RElem := [RElem.lit mark, RElem.star true isSpc, RElem.lit mark]

/-- Its replacement: a single marker. -/
def dedupRep : List TPart := [TPart.lit mark]

/-- Pattern 5 of `fix_syntax_errors`, applied per line: when the line
holds the marker and its stripped form ends in none of `,` `{` `}`,
every marker occurrence in the line is replaced by `, ` and the marker. -/
def fixLine5 (line : List Char) : List Char :=
  if mark <:+: line then
    let t := pyStrip line
    if t.getLast? = some ',' ∨ t.getLast? = some '\x7b' ∨ t.getLast? = some '\x7d' then line
    else pyReplace mark (", ".data ++ mark) line
  else line

/-- `fix_syntax_errors` of `fix_all_syntax.py`: the four substitutions,
then the line pass, in order on the evolving buffer. -/
def fix_syntax_errors (content : List Char) : List Char :=
  let c4 := pySub dedupPat dedupRep
    (pySub se3pat se3rep (pySub se2pat se2rep (pySub se1pat se1rep content)))
  joinNl ((splitNl c4).map fixLine5)

/-! ### The patterns of `fix_final_syntax.py`, `fix_all_patterns` (lines 10–83) -/

/-- Pattern 1: `(\s+)([\w]+):\s*(['\"][^'\"]+['\"])\s*// ! HARDCODED: Should use design tokens,`. -/
def fa1pat : List RElem :=
  [RElem.gopen 1, RElem.plus true isSpc, RElem.gclose,
   RElem.gopen 2, RElem.plus true isWord, RElem.gclose,
   RElem.lit ":".data, RElem.star true isSpc,
   RElem.gopen 3, RElem.cls isQuote, RElem.plus true notQuote2, RElem.cls isQuote, RElem.gclose,
   RElem.star true isSpc, RElem.lit (mark ++ ",".data)]

/-- Replacement 1: `\1\2: \3, // ! HARDCODED: Should use design tokens`. -/
def fa1rep : List TPart :=
  [TPart.grp 1, TPart.grp 2, TPart.lit ": ".data, TPart.grp 3, TPart.lit (", ".data ++ mark)]

/-- Pattern 2: `,\s*([\w]+):\s*(['\"][^'\"]+['\"])\s*M,\s*([\w]+):\s*(['\"][^'\"]+['\"])\s*M,`. -/
def fa2pat : List RElem :=
  [RElem.lit ",".data, RElem.star true isSpc,
   RElem.gopen 1, RElem.plus true isWord, RElem.gclose,
   RElem.lit ":".data, RElem.star true isSpc,
   RElem.gopen 2, RElem.cls isQuote, RElem.plus true notQuote2, RElem.cls isQuote, RElem.gclose,
   RElem.star true isSpc, RElem.lit (mark ++ ",".data), RElem.star true isSpc,
   RElem.gopen 3, RElem.plus true isWord, RElem.gclose,
   RElem.lit ":".data, RElem.star true isSpc,
   RElem.gopen 4, RElem.cls isQuote, RElem.plus true notQuote2, RElem.cls isQuote, RElem.gclose,
   RElem.star true isSpc, RElem.lit (mark ++ ",".data)]

/-- Replacement 2: `,\n    \1: \2, M\n    \3: \4, M`. -/
def fa2rep : List TPart :=
  [TPart.lit ",\n    ".data, TPart.grp 1, TPart.lit ": ".data, TPart.grp 2,
   TPart.lit (", ".data ++ mark ++ "\n    ".data), TPart.grp 3, TPart.lit ": ".data,
   TPart.grp 4, TPart.lit (", ".data ++ mark)]

/-- Pattern 3: `(\s+)([\w]+):\s*\{\s*([\w]+):\s*(['\"][^'\"]+['\"])\s*M,\s*([\w]+):\s*(['\"][^'\"]+['\"])\s*M,`. -/
def fa3pat : List RElem :=
  [RElem.gopen 1, RElem.plus true isSpc, RElem.gclose,
   RElem.gopen 2, RElem.plus true isWord, RElem.gclose,
   RElem.lit ":".data, RElem.star true isSpc, RElem.lit "\x7b".data, RElem.star true isSpc,
   RElem.gopen 3, RElem.plus true isWord, RElem.gclose,
   RElem.lit ":".data, RElem.star true isSpc,
   RElem.gopen 4, RElem.cls isQuote, RElem.plus true notQuote2, RElem.cls isQuote, RElem.gclose,
   RElem.star true isSpc, RElem.lit (mark ++ ",".data), RElem.star true isSpc,
   RElem.gopen 5, RElem.plus true isWord, RElem.gclose,
   RElem.lit ":".data, RElem.star true isSpc,
   RElem.gopen 6, RElem.cls isQuote, RElem.plus true notQuote2, RElem.cls isQuote, RElem.gclose,
   RElem.star true isSpc, RElem.lit (mark ++ ",".data)]

/-- Replacement 3: `\1\2: {\n    \3: \4, M\n    \5: \6, M`. -/
def fa3rep : List TPart :=
  [TPart.grp 1, TPart.grp 2, TPart.lit ": \x7b\n    ".data, TPart.grp 3,
   TPart.lit ": ".data, TPart.grp 4, TPart.lit (", ".data ++ mark ++ "\n    ".data),
   TPart.grp 5, TPart.lit ": ".data, TPart.grp 6, TPart.lit (", ".data ++ mark)]

/-- Pattern 4: `(\s+)([\w]+):\s*\{\s*([\w]+):\s*(['\"][^'\"]+['\"])\s*M,`. -/
def fa4pat : List RElem :=
  [RElem.gopen 1, RElem.plus true isSpc, RElem.gclose,
   RElem.gopen 2, RElem.plus true isWord, RElem.gclose,
   RElem.lit ":".data, RElem.star true isSpc, RElem.lit "\x7b".data, RElem.star true isSpc,
   RElem.gopen 3, RElem.plus true isWord, RElem.gclose,
   RElem.lit ":".data, RElem.star true isSpc,
   RElem.gopen 4, RElem.cls isQuote, RElem.plus true notQuote2, RElem.cls isQuote, RElem.gclose,
   RElem.star true isSpc, RElem.lit (mark ++ ",".data)]

/-- Replacement 4: `\1\2: {\n    \3: \4, M`. -/
def fa4rep : List TPart :=
  [TPart.grp 1, TPart.grp 2, TPart.lit ": \x7b\n    ".data, TPart.grp 3,
   TPart.lit ": ".data, TPart.grp 4, TPart.lit (", ".data ++ mark)]

/-- Pattern 5: `(\s+)([\w]+):\s*(['\"][^'\"]+['\"])\s*// ! HARDCODED: Should use design tokens\s*\}`. -/
def fa5pat : List RElem :=
  [RElem.gopen 1, RElem.plus true isSpc, RElem.gclose,
   RElem.gopen 2, RElem.plus true isWord, RElem.gclose,
   RElem.lit ":".data, RElem.star true isSpc,
   RElem.gopen 3, RElem.cls isQuote, RElem.plus true notQuote2, RElem.cls isQuote, RElem.gclose,
   RElem.star true isSpc, RElem.lit mark, RElem.star true isSpc, RElem.lit "\x7d".data]

/-- Replacement 5: `\1\2: \3, // ! HARDCODED: Should use design tokens\n  }`. -/
def fa5rep : List TPart :=
  [TPart.grp 1, TPart.grp 2, TPart.lit ": ".data, TPart.grp 3,
   TPart.lit (", ".data ++ mark ++ "\n  \x7d".data)]

/-- Pattern 7: `colors=\{?\['\s*// ! HARDCODED[^']*#([\w]+)'\]\}?`. -/
def fa7pat : List RElem :=
  [RElem.lit "colors=".data, RElem.optc '\x7b', RElem.lit "['".data,
   RElem.star true isSpc, RElem.lit markShort, RElem.star true notSq,
   RElem.lit "#".data, RElem.gopen 1, RElem.plus true isWord, RElem.gclose,
   RElem.lit "']".data, RElem.optc '\x7d']

/-- Replacement 7: `colors={['#\1']} // ! HARDCODED: Should use design tokens`. -/
def fa7rep : List TPart :=
  [TPart.lit "colors=\x7b['#".data, TPart.grp 1, TPart.lit ("']\x7d ".data ++ mark)]

/-- Pattern 8: `\?([^:]+)// ! HARDCODED: Should use design tokens\s*:`. -/
def fa8pat : List RElem :=
  [RElem.lit "?".data, RElem.gopen 1, RElem.plus true notColon, RElem.gclose,
   RElem.lit mark, RElem.star true isSpc, RElem.lit ":".data]

/-- Replacement 8: `? \1 :`. -/
def fa8rep : List TPart := [TPart.lit "? ".data, TPart.grp 1, TPart.lit " :".data]

/-- Pattern 9: `setSearchQuery\(''\s*// ! HARDCODED: Should use design tokens\)`. -/
def fa9pat : List RElem :=
  [RElem.lit "setSearchQuery(''".data, RElem.star true isSpc, RElem.lit (mark ++ ")".data)]

/-- Replacement 9: `setSearchQuery('')`. -/
def fa9rep : List TPart := [TPart.lit "setSearchQuery('')".data]

/-- `fix_all_patterns` of `fix_final_syntax.py`: the nine substitutions
in order on the evolving buffer (Pattern 6 is the marker deduplication). -/
def fix_all_patterns (content : List Char) : List Char :=
  pySub fa9pat fa9rep (pySub fa8pat fa8rep (pySub fa7pat fa7rep
    (pySub dedupPat dedupRep (pySub fa5pat fa5rep (pySub fa4pat fa4rep
      (pySub fa3pat fa3rep (pySub fa2pat fa2rep (pySub fa1pat fa1rep content))))))))

/-! ### File-system model and the per-file / per-run drivers -/

/-- The state the scripts interact with: the readable files (a failed
read — the file missing or any `open`/`read` exception — is `none`) and
which paths can be opened for writing (a raised write exception is a
non-writable path). -/
structure Sys where
  files : String → Option (List Char)
  writable : String → Bool

/-- Overwrite one file. -/
def fsWrite (fs : String → Option (List Char)) (p : String) (v : List Char) :
    String → Option (List Char) :=
  fun q => if q = p then some v else fs q

/-- `process_file` — textually identical in the three scripts up to the
fix function: read the file, transform, and write back only when the
transform changed the content, returning `True` exactly on a performed
write; every exception is caught and turns into `False`. -/
def process_file (fix : List Char → List Char) (sys : Sys) (p : String) : Bool × Sys :=
  match sys.files p with
  | none => (false, sys)
  | some content =>
    let fixed := fix content
    if fixed = content then (false, sys)
    else if sys.writable p then (true, { sys with files := fsWrite sys.files p fixed })
    else (false, sys)

/-- The loop of `fix_all_syntax.main` (lines 100–106): for each listed
path, skip it when it does not exist, otherwise run `process_file` and
count the files it reports fixed. -/
def main_loop (fix : List Char → List Char) : Sys → List String → Sys × Nat
  | sys, [] => (sys, 0)
  | sys, p :: rest =>
    match sys.files p with
    | none => main_loop fix sys rest
    | some _ =>
      let r := process_file fix sys p
      let t := main_loop fix r.2 rest
      (t.1, (if r.1 then 1 else 0) + t.2)

/-! ### `superclaude/__init__.py` -/

/-- `__version__` of `superclaude/__init__.py` (lines 16–20): the
stripped text of the sibling `VERSION` file, or the fallback `"4.1.5"`
when reading it raised any exception (modelled as `none`). -/
def superclaude_version (readVersion : Option (List Char)) : List Char :=
  match readVersion with
  | some s => pyStrip s
  | none => "4.1.5".data

/-! ### Matcher soundness lemmas -/

theorem firstSome_some {α} {ns : List Nat} {f : Nat → Option α} {r : α}
    (h : firstSome ns f = some r) : ∃ n ∈ ns, f n = some r := by
  induction ns with
  | nil => simp [firstSome] at h
  | cons n ns ih =>
    rw [firstSome] at h
    cases hf : f n with
    | some v => rw [hf] at h; exact ⟨n, List.mem_cons_self n ns, hf.trans h⟩
    | none =>
      rw [hf] at h
      obtain ⟨m, hm, hfm⟩ := ih h
      exact ⟨m, List.mem_cons_of_mem n hm, hfm⟩

theorem countSat_take {p : Char → Bool} {s : List Char} {n : Nat}
    (h : n ≤ countSat p s) : ∀ a ∈ s.take n, p a = true := by
  induction s generalizing n with
  | nil => simp
  | cons c s ih =>
    cases n with
    | zero => simp
    | succ n =>
      rw [countSat] at h
      by_cases hc : p c
      · simp only [hc, if_true] at h
        intro a ha
        rcases List.mem_cons.1 (by simpa using ha) with h1 | h1
        · subst h1; exact hc
        · exact ih (Nat.le_of_succ_le_succ h) a h1
      · simp [hc] at h

theorem mem_starRange {g : Bool} {m n : Nat} (h : n ∈ starRange g m) : n ≤ m := by
  unfold starRange at h
  rcases g with _ | _ <;> simp at h <;> omega

theorem mem_plusRange {g : Bool} {m n : Nat} (h : n ∈ plusRange g m) : n ≤ m := by
  unfold plusRange at h
  rcases g with _ | _ <;> simp [List.mem_range'_1] at h <;> omega

/-- Whenever the matcher succeeds on a pattern containing a literal
element, that literal occurs as a contiguous substring of the input. -/
theorem matchSeq_lit_occurs {L : List Char} :
    ∀ (r : List RElem) (s : List Char) (pend : Option (Nat × List Char)) (acc : Caps)
      (k : Caps → List Char → Option (Caps × List Char)) (out : Caps × List Char),
      RElem.lit L ∈ r → matchSeq r s pend acc k = some out → L <:+: s := by
  intro r
  induction r with
  | nil => intro s pend acc k out hmem; simp at hmem
  | cons e r ih =>
    intro s pend acc k out hmem hm
    have infix_drop : ∀ (n : Nat), L <:+: s.drop n → L <:+: s :=
      fun n h => h.trans (List.drop_suffix n s).isInfix
    cases e with
    | lit l =>
      rw [matchSeq] at hm
      by_cases hp : l.isPrefixOf s
      · rcases List.mem_cons.1 hmem with he | he
        · obtain ⟨t, ht⟩ := List.isPrefixOf_iff_prefix.1 hp
          cases he
          exact ⟨[], t, by simpa using ht⟩
        · exact infix_drop _ (ih _ _ _ _ _ he (by simpa [hp] using hm))
      · simp [hp] at hm
    | cls p =>
      rcases List.mem_cons.1 hmem with he | he
      · cases he
      cases s with
      | nil => rw [matchSeq] at hm; simp at hm
      | cons a s2 =>
        rw [matchSeq] at hm
        by_cases hp : p a
        · have := ih _ _ _ _ _ he (by simpa [hp] using hm)
          exact this.trans (List.suffix_cons a s2).isInfix
        · simp [hp] at hm
    | star g p =>
      rcases List.mem_cons.1 hmem with he | he
      · cases he
      rw [matchSeq] at hm
      obtain ⟨n, _, hfn⟩ := firstSome_some hm
      exact infix_drop n (ih _ _ _ _ _ he hfn)
    | plus g p =>
      rcases List.mem_cons.1 hmem with he | he
      · cases he
      rw [matchSeq] at hm
      obtain ⟨n, _, hfn⟩ := firstSome_some hm
      exact infix_drop n (ih _ _ _ _ _ he hfn)
    | optc a =>
      rcases List.mem_cons.1 hmem with he | he
      · cases he
      cases s with
      | nil => rw [matchSeq] at hm; exact ih _ _ _ _ _ he hm
      | cons b s2 =>
        rw [matchSeq] at hm
        by_cases hb : b = a
        · subst hb
          simp only [if_true] at hm
          cases hm2 : matchSeq r s2 pend acc k with
          | some out2 =>
            rw [hm2] at hm
            have := ih _ _ _ _ _ he hm2
            exact this.trans (List.suffix_cons b s2).isInfix
          | none =>
            rw [hm2] at hm
            have hm3 : matchSeq r (b :: s2) pend acc k = some out := hm
            exact ih _ _ _ _ _ he hm3
        · simp only [hb, if_false] at hm
          exact ih _ _ _ _ _ he hm
    | gopen i =>
      rcases List.mem_cons.1 hmem with he | he
      · cases he
      rw [matchSeq] at hm
      exact ih _ _ _ _ _ he hm
    | gclose =>
      rcases List.mem_cons.1 hmem with he | he
      · cases he
      cases pend with
      | none => rw [matchSeq] at hm; simp at hm
      | some x => rw [matchSeq] at hm; exact ih _ _ _ _ _ he hm

/-- A successful leftmost search on a pattern containing literal `L`
means `L` occurs in the input. -/
theorem findMatch_some_lit_occurs {L : List Char} {r : List RElem} :
    ∀ (s : List Char) (x : List Char × Caps × List Char),
      RElem.lit L ∈ r → findMatch r s = some x → L <:+: s := by
  intro s
  induction s with
  | nil =>
    intro x hmem hf
    rw [findMatch] at hf
    cases hm : matchSeq r [] none [] (fun a t => some (a, t)) with
    | some y => exact matchSeq_lit_occurs r [] none [] _ y hmem hm
    | none => rw [hm] at hf; simp at hf
  | cons c s2 ih =>
    intro x hmem hf
    rw [findMatch] at hf
    cases hm : matchSeq r (c :: s2) none [] (fun a t => some (a, t)) with
    | some y => exact matchSeq_lit_occurs r (c :: s2) none [] _ y hmem hm
    | none =>
      rw [hm] at hf
      cases hf2 : findMatch r s2 with
      | none => rw [hf2] at hf; simp at hf
      | some y =>
        have := ih y hmem hf2
        exact this.trans (List.suffix_cons c s2).isInfix

/-- When the leftmost search fails, the fueled substitution returns the
input unchanged (for any positive fuel). -/
theorem subN_eq_self_of_none {r : List RElem} {t : List TPart} {s : List Char}
    (h : findMatch r s = none) : ∀ fuel, subN r t fuel s = s := by
  intro fuel
  cases fuel with
  | zero => rfl
  | succ fuel => rw [subN, h]

/-- `re.sub` is the identity on any input in which a literal of the
pattern does not occur. -/
theorem pySub_id_of_lit_absent {L : List Char} {r : List RElem} {t : List TPart}
    {s : List Char} (hmem : RElem.lit L ∈ r) (h : ¬ L <:+: s) : pySub r t s = s := by
  cases hf : findMatch r s with
  | none => exact subN_eq_self_of_none hf _
  | some x => exact absurd (findMatch_some_lit_occurs s x hmem hf) h

/-- Transfer: a literal that itself contains `// ! HARDCODED` cannot
occur in a buffer free of `// ! HARDCODED`. -/
theorem not_lit_occurs_of_not_short {L s : List Char} (hL : markShort <:+: L)
    (h : ¬ markShort <:+: s) : ¬ L <:+: s :=
  fun hi => h (hL.trans hi)

theorem sl1_id {s : List Char} (h : ¬ markShort <:+: s) : pySub sl1pat sl1rep s = s := by
  refine pySub_id_of_lit_absent (L := mark) ?_ (not_lit_occurs_of_not_short (by decide) h)
  simp only [sl1pat]
  repeat first
    | exact List.mem_cons_self _ _
    | apply List.mem_cons_of_mem

theorem sl2_id {s : List Char} (h : ¬ markShort <:+: s) : pySub sl2pat sl2rep s = s := by
  refine pySub_id_of_lit_absent (L := mark) ?_ (not_lit_occurs_of_not_short (by decide) h)
  simp only [sl2pat]
  repeat first
    | exact List.mem_cons_self _ _
    | apply List.mem_cons_of_mem

theorem sl3_id {s : List Char} (h : ¬ markShort <:+: s) : pySub sl3pat sl3rep s = s := by
  refine pySub_id_of_lit_absent (L := mark) ?_ (not_lit_occurs_of_not_short (by decide) h)
  simp only [sl3pat]
  repeat first
    | exact List.mem_cons_self _ _
    | apply List.mem_cons_of_mem

theorem se1_id {s : List Char} (h : ¬ markShort <:+: s) : pySub se1pat se1rep s = s := by
  refine pySub_id_of_lit_absent (L := mark ++ ",".data) ?_
    (not_lit_occurs_of_not_short (by decide) h)
  simp only [se1pat]
  repeat first
    | exact List.mem_cons_self _ _
    | apply List.mem_cons_of_mem

theorem se2_id {s : List Char} (h : ¬ markShort <:+: s) : pySub se2pat se2rep s = s := by
  refine pySub_id_of_lit_absent (L := mark ++ ",".data) ?_
    (not_lit_occurs_of_not_short (by decide) h)
  simp only [se2pat]
  repeat first
    | exact List.mem_cons_self _ _
    | apply List.mem_cons_of_mem

theorem se3_id {s : List Char} (h : ¬ markShort <:+: s) : pySub se3pat se3rep s = s := by
  refine pySub_id_of_lit_absent (L := mark ++ ",".data) ?_
    (not_lit_occurs_of_not_short (by decide) h)
  simp only [se3pat]
  repeat first
    | exact List.mem_cons_self _ _
    | apply List.mem_cons_of_mem

theorem dedup_id_of_not_short {s : List Char} (h : ¬ markShort <:+: s) :
    pySub dedupPat dedupRep s = s := by
  refine pySub_id_of_lit_absent (L := mark) ?_ (not_lit_occurs_of_not_short (by decide) h)
  simp only [dedupPat]
  repeat first
    | exact List.mem_cons_self _ _
    | apply List.mem_cons_of_mem

theorem fa1_id {s : List Char} (h : ¬ markShort <:+: s) : pySub fa1pat fa1rep s = s := by
  refine pySub_id_of_lit_absent (L := mark ++ ",".data) ?_
    (not_lit_occurs_of_not_short (by decide) h)
  simp only [fa1pat]
  repeat first
    | exact List.mem_cons_self _ _
    | apply List.mem_cons_of_mem

theorem fa2_id {s : List Char} (h : ¬ markShort <:+: s) : pySub fa2pat fa2rep s = s := by
  refine pySub_id_of_lit_absent (L := mark ++ ",".data) ?_
    (not_lit_occurs_of_not_short (by decide) h)
  simp only [fa2pat]
  repeat first
    | exact List.mem_cons_self _ _
    | apply List.mem_cons_of_mem

theorem fa3_id {s : List Char} (h : ¬ markShort <:+: s) : pySub fa3pat fa3rep s = s := by
  refine pySub_id_of_lit_absent (L := mark ++ ",".data) ?_
    (not_lit_occurs_of_not_short (by decide) h)
  simp only [fa3pat]
  repeat first
    | exact List.mem_cons_self _ _
    | apply List.mem_cons_of_mem

theorem fa4_id {s : List Char} (h : ¬ markShort <:+: s) : pySub fa4pat fa4rep s = s := by
  refine pySub_id_of_lit_absent (L := mark ++ ",".data) ?_
    (not_lit_occurs_of_not_short (by decide) h)
  simp only [fa4pat]
  repeat first
    | exact List.mem_cons_self _ _
    | apply List.mem_cons_of_mem

theorem fa5_id {s : List Char} (h : ¬ markShort <:+: s) : pySub fa5pat fa5rep s = s := by
  refine pySub_id_of_lit_absent (L := mark) ?_ (not_lit_occurs_of_not_short (by decide) h)
  simp only [fa5pat]
  repeat first
    | exact List.mem_cons_self _ _
    | apply List.mem_cons_of_mem

theorem fa7_id {s : List Char} (h : ¬ markShort <:+: s) : pySub fa7pat fa7rep s = s := by
  refine pySub_id_of_lit_absent (L := markShort) ?_
    (not_lit_occurs_of_not_short (by decide) h)
  simp only [fa7pat]
  repeat first
    | exact List.mem_cons_self _ _
    | apply List.mem_cons_of_mem

theorem fa8_id {s : List Char} (h : ¬ markShort <:+: s) : pySub fa8pat fa8rep s = s := by
  refine pySub_id_of_lit_absent (L := mark) ?_ (not_lit_occurs_of_not_short (by decide) h)
  simp only [fa8pat]
  repeat first
    | exact List.mem_cons_self _ _
    | apply List.mem_cons_of_mem

theorem fa9_id {s : List Char} (h : ¬ markShort <:+: s) : pySub fa9pat fa9rep s = s := by
  refine pySub_id_of_lit_absent (L := mark ++ ")".data) ?_
    (not_lit_occurs_of_not_short (by decide) h)
  simp only [fa9pat]
  repeat first
    | exact List.mem_cons_self _ _
    | apply List.mem_cons_of_mem

/-- `fix_all_patterns` is the identity on a buffer free of `// ! HARDCODED`. -/
theorem fix_all_patterns_id {s : List Char} (h : ¬ markShort <:+: s) :
    fix_all_patterns s = s := by
  unfold fix_all_patterns
  rw [fa1_id h, fa2_id h, fa3_id h, fa4_id h, fa5_id h, dedup_id_of_not_short h,
    fa7_id h, fa8_id h, fa9_id h]

/-- `fix_string_literals` is the identity on a buffer free of `// ! HARDCODED`. -/
theorem fix_string_literals_id {s : List Char} (h : ¬ markShort <:+: s) :
    fix_string_literals s = s := by
  unfold fix_string_literals
  rw [sl1_id h, sl2_id h, sl3_id h]

/-! ### The line pass of `fix_syntax_errors` -/

theorem splitNl_ne_nil : ∀ s : List Char, splitNl s ≠ [] := by
  intro s
  cases s with
  | nil => simp [splitNl]
  | cons c s2 =>
    rw [splitNl]
    by_cases hc : c = '\n'
    · simp [hc]
    · simp only [hc, if_false]
      cases splitNl s2 <;> simp

theorem splitNl_head_prefix : ∀ (s l : List Char) (ls : List (List Char)),
    splitNl s = l :: ls → l <+: s := by
  intro s
  induction s with
  | nil =>
    intro l ls h
    rw [splitNl] at h
    cases h
    exact List.nil_prefix
  | cons c s2 ih =>
    intro l ls h
    rw [splitNl] at h
    by_cases hc : c = '\n'
    · simp only [hc, if_pos rfl] at h
      cases h
      exact List.nil_prefix
    · simp only [hc, if_false] at h
      cases h2 : splitNl s2 with
      | nil => exact absurd h2 (splitNl_ne_nil s2)
      | cons l2 ls2 =>
        rw [h2] at h
        injection h with h3 h4
        subst h3
        exact List.cons_prefix_cons.2 ⟨rfl, ih l2 ls2 h2⟩

theorem joinNl_splitNl : ∀ s : List Char, joinNl (splitNl s) = s := by
  intro s
  induction s with
  | nil => rfl
  | cons c s2 ih =>
    rw [splitNl]
    by_cases hc : c = '\n'
    · simp only [hc, if_pos rfl]
      cases h2 : splitNl s2 with
      | nil => exact absurd h2 (splitNl_ne_nil s2)
      | cons l2 ls2 =>
        rw [h2] at ih
        simpa [joinNl] using ih
    · simp only [hc, if_false]
      cases h2 : splitNl s2 with
      | nil => exact absurd h2 (splitNl_ne_nil s2)
      | cons l2 ls2 =>
        rw [h2] at ih
        cases ls2 with
        | nil => simpa [joinNl] using ih
        | cons l3 ls3 => simpa [joinNl] using ih

theorem mem_splitNl_occurs : ∀ (s line : List Char), line ∈ splitNl s → line <:+: s := by
  intro s
  induction s with
  | nil =>
    intro line h
    rw [splitNl] at h
    simp at h
    simp [h]
  | cons c s2 ih =>
    intro line h
    rw [splitNl] at h
    by_cases hc : c = '\n'
    · simp only [hc, if_pos rfl] at h
      rcases List.mem_cons.1 h with h1 | h1
      · simp [h1]
      · exact (ih line h1).trans (List.suffix_cons c s2).isInfix
    · simp only [hc, if_false] at h
      cases h2 : splitNl s2 with
      | nil => exact absurd h2 (splitNl_ne_nil s2)
      | cons l2 ls2 =>
        rw [h2] at h
        rcases List.mem_cons.1 h with h1 | h1
        · subst h1
          exact (List.cons_prefix_cons.2 ⟨rfl, splitNl_head_prefix s2 l2 ls2 h2⟩).isInfix
        · have : line ∈ splitNl s2 := by rw [h2]; exact List.mem_cons_of_mem l2 h1
          exact (ih line this).trans (List.suffix_cons c s2).isInfix

theorem map_self {α} {f : α → α} : ∀ {l : List α}, (∀ a ∈ l, f a = a) → l.map f = l := by
  intro l
  induction l with
  | nil => intro _; rfl
  | cons a l ih =>
    intro h
    rw [List.map_cons, h a (List.mem_cons_self a l), ih fun b hb => h b (List.mem_cons_of_mem a hb)]

/-- `fix_syntax_errors` is the identity on a buffer free of `// ! HARDCODED`. -/
theorem fix_syntax_errors_id {s : List Char} (h : ¬ markShort <:+: s) :
    fix_syntax_errors s = s := by
  unfold fix_syntax_errors
  rw [se1_id h, se2_id h, se3_id h, dedup_id_of_not_short h]
  show joinNl ((splitNl s).map fixLine5) = s
  have hmap : ∀ l ∈ splitNl s, fixLine5 l = l := by
    intro l hl
    unfold fixLine5
    rw [if_neg]
    intro hm
    exact h ((((by decide : markShort <+: mark)).isInfix.trans hm).trans (mem_splitNl_occurs s l hl))
  rw [map_self hmap, joinNl_splitNl]

/-! ### The marker-deduplication rule -/

/-- `s` contains two adjacent markers separated only by whitespace
(exactly what the deduplication regex `mark\s*mark` can match). -/
def AdjDup (s : List Char) : Prop :=
  ∃ a w b, (∀ ch ∈ w, isSpc ch = true) ∧ s = a ++ mark ++ w ++ mark ++ b

theorem countSat_append_of_all {p : Char → Bool} {w r : List Char}
    (hw : ∀ a ∈ w, p a = true) (hr : countSat p r = 0) :
    countSat p (w ++ r) = w.length := by
  induction w with
  | nil => simpa using hr
  | cons a w ih =>
    rw [List.cons_append, countSat, hw a (List.mem_cons_self a w),
      ih fun b hb => hw b (List.mem_cons_of_mem a hb)]
    simp

theorem firstSome_head {α} {n : Nat} {ns : List Nat} {f : Nat → Option α} {r : α}
    (h : f n = some r) : firstSome (n :: ns) f = some r := by
  rw [firstSome, h]

theorem starRange_greedy_head (m : Nat) :
    starRange true m = m :: (List.range m).reverse := by
  rw [starRange, if_pos rfl, List.range_succ, List.reverse_append]
  rfl

/-- A successful anchored match against `findMatch`'s continuation
decomposes the input at the match. -/
theorem findMatch_decomp {r : List RElem} :
    ∀ (s pre : List Char) (acc : Caps) (rest : List Char),
      findMatch r s = some (pre, acc, rest) →
      ∃ mid, s = pre ++ mid ∧
        matchSeq r mid none [] (fun a t => some (a, t)) = some (acc, rest) := by
  intro s
  induction s with
  | nil =>
    intro pre acc rest h
    rw [findMatch] at h
    cases hm : matchSeq r [] none [] (fun a t => some (a, t)) with
    | some y =>
      rw [hm] at h
      obtain ⟨y1, y2⟩ := y
      injection h with h1
      injection h1 with hpre h2
      injection h2 with hacc hrest
      exact ⟨[], by simp [hpre.symm], by rw [hm, hacc, hrest]⟩
    | none => rw [hm] at h; simp at h
  | cons c s2 ih =>
    intro pre acc rest h
    rw [findMatch] at h
    cases hm : matchSeq r (c :: s2) none [] (fun a t => some (a, t)) with
    | some y =>
      rw [hm] at h
      obtain ⟨y1, y2⟩ := y
      injection h with h1
      injection h1 with hpre h2
      injection h2 with hacc hrest
      exact ⟨c :: s2, by simp [hpre.symm], by rw [hm, hacc, hrest]⟩
    | none =>
      rw [hm] at h
      cases hf : findMatch r s2 with
      | none => rw [hf] at h; simp at h
      | some x =>
        obtain ⟨x1, x2, x3⟩ := x
        rw [hf] at h
        simp only [Option.map_some, Option.some.injEq, Prod.mk.injEq] at h
        obtain ⟨hpre, hacc, hrest⟩ := h
        obtain ⟨mid, hs2, hm2⟩ := ih x1 x2 x3 hf
        refine ⟨mid, ?_, ?_⟩
        · simp [hs2]
        · simp [hm2]

/-- Shape of any successful anchored match of the deduplication regex:
the input starts with marker, whitespace, marker. -/
theorem matchSeq_dedup_shape {s : List Char} {acc : Caps} {rest : List Char}
    (h : matchSeq dedupPat s none [] (fun a t => some (a, t)) = some (acc, rest)) :
    ∃ w, (∀ ch ∈ w, isSpc ch = true) ∧ s = mark ++ w ++ mark ++ rest := by
  rw [dedupPat, matchSeq] at h
  by_cases hp : mark.isPrefixOf s
  · simp only [hp, if_true] at h
    obtain ⟨s2, hs2⟩ := List.isPrefixOf_iff_prefix.1 hp
    have hdrop : s.drop mark.length = s2 := by rw [hs2.symm]; exact List.drop_left mark s2
    rw [hdrop, matchSeq] at h
    obtain ⟨n, hnmem, hfn⟩ := firstSome_some h
    have hn : n ≤ countSat isSpc s2 := mem_starRange hnmem
    rw [matchSeq] at hfn
    by_cases hp2 : mark.isPrefixOf (s2.drop n)
    · simp only [hp2, if_true] at hfn
      obtain ⟨s3, hs3⟩ := List.isPrefixOf_iff_prefix.1 hp2
      have hdrop2 : (s2.drop n).drop mark.length = s3 := by
        rw [hs3.symm]; exact List.drop_left mark s3
      rw [hdrop2, matchSeq] at hfn
      injection hfn with h1
      injection h1 with hacc hrest
      refine ⟨s2.take n, countSat_take hn, ?_⟩
      rw [← hs2, ← hrest]
      conv_lhs => rw [← List.take_append_drop n s2, ← hs3]
      simp
    · simp [hp2] at hfn
  · simp [hp] at h

/-- When the input has no two adjacent whitespace-separated markers, the
deduplication substitution changes nothing. -/
theorem dedup_id_of_no_adjdup {s : List Char} (h : ¬ AdjDup s) :
    pySub dedupPat dedupRep s = s := by
  cases hf : findMatch dedupPat s with
  | none => exact subN_eq_self_of_none hf _
  | some x =>
    obtain ⟨pre, acc, rest⟩ := x
    obtain ⟨mid, hs, hm⟩ := findMatch_decomp s pre acc rest hf
    obtain ⟨w, hw, hmid⟩ := matchSeq_dedup_shape hm
    exact absurd ⟨pre, w, rest, hw, by rw [hs, hmid]; simp⟩ h

/-- A successful anchored match is reported by the scan with an empty
unmatched prefix. -/
theorem findMatch_of_matchSeq {r : List RElem} {s : List Char} {acc : Caps}
    {rest : List Char}
    (h : matchSeq r s none [] (fun a t => some (a, t)) = some (acc, rest)) :
    findMatch r s = some ([], acc, rest) := by
  cases s with
  | nil => rw [findMatch, h]
  | cons c s2 => rw [findMatch, h]

theorem subN_dedup_nil : ∀ fuel, subN dedupPat dedupRep fuel [] = [] := by
  intro fuel
  cases fuel with
  | zero => rfl
  | succ fuel =>
    rw [subN, show findMatch dedupPat [] = none from rfl]

/-- One application of the deduplication rule collapses a single
whitespace-separated pair of adjacent markers to one marker. -/
theorem dedup_pair {w : List Char} (hw : ∀ a ∈ w, isSpc a = true) :
    pySub dedupPat dedupRep (mark ++ w ++ mark) = mark := by
  have hcount : countSat isSpc (w ++ mark) = w.length :=
    countSat_append_of_all hw (by decide)
  have hlast : matchSeq [RElem.lit mark] ((w ++ mark).drop w.length) none []
      (fun a t => some (a, t)) = some ([], []) := by
    rw [List.drop_left w mark, matchSeq,
      if_pos (List.isPrefixOf_iff_prefix.2 (List.prefix_refl mark)), List.drop_length,
      matchSeq]
  have hm : matchSeq dedupPat (mark ++ w ++ mark) none []
      (fun a t => some (a, t)) = some ([], []) := by
    rw [dedupPat, matchSeq, List.append_assoc,
      if_pos (List.isPrefixOf_iff_prefix.2 (List.prefix_append mark (w ++ mark))),
      List.drop_left mark (w ++ mark), matchSeq, hcount, starRange_greedy_head]
    exact firstSome_head hlast
  have hf : findMatch dedupPat (mark ++ w ++ mark) = some ([], [], []) :=
    findMatch_of_matchSeq hm
  have hlen : (mark ++ w ++ mark).length = 80 + w.length := by
    simp [mark]
    omega
  rw [pySub, subN, hf]
  simp only [List.length_nil, Nat.sub_zero]
  rw [if_neg (by omega)]
  rw [subN_dedup_nil]
  simp [dedupRep, expand]

/-! ### Character-count preservation (for `fix_string_literals`) -/

/-- Number of occurrences of `c` in the literal elements of a pattern
(classes and optional characters are counted only through `patOKb`). -/
def litCount (c : Char) : List RElem → Nat
  | [] => 0
  | RElem.lit l :: r => l.count c + litCount c r
  | _ :: r => litCount c r

/-- Number of occurrences of `c` in the literal parts of a template. -/
def tmplLitCount (c : Char) : List TPart → Nat
  | [] => 0
  | TPart.lit l :: t => l.count c + tmplLitCount c t
  | TPart.grp _ :: t => tmplLitCount c t

/-- Every class of the pattern rejects `c`, no optional character is `c`,
and no literal inside a capture group contains `c` (`inG` tracks whether
a group is open).  Under this condition every match consumes exactly
`litCount c` occurrences of `c` and every capture is `c`-free. -/
def patOKb (c : Char) : Bool → List RElem → Bool
  | _, [] => true
  | inG, RElem.lit l :: r => (!inG || l.count c == 0) && patOKb c inG r
  | inG, RElem.cls p :: r => !p c && patOKb c inG r
  | inG, RElem.star _ p :: r => !p c && patOKb c inG r
  | inG, RElem.plus _ p :: r => !p c && patOKb c inG r
  | inG, RElem.optc a :: r => !(a == c) && patOKb c inG r
  | _, RElem.gopen _ :: r => patOKb c true r
  | _, RElem.gclose :: r => patOKb c false r

/-- Invariant on the pending capture: everything consumed since the
group opened is `c`-free. -/
def PendOK (c : Char) (pend : Option (Nat × List Char)) (s : List Char) : Prop :=
  ∀ j s0, pend = some (j, s0) → ∃ t, s0 = t ++ s ∧ t.count c = 0

theorem pendOK_none {c : Char} {s : List Char} : PendOK c none s :=
  fun _ _ h => nomatch h

theorem count_zero_of_all_sat {c : Char} {p : Char → Bool} {u : List Char}
    (hu : ∀ a ∈ u, p a = true) (hc : p c = false) : u.count c = 0 := by
  rw [List.count_eq_zero]
  intro hmem
  rw [hu c hmem] at hc
  cases hc

/-- Expansion of a template against `c`-free captures has exactly the
`c`-count of its literal parts. -/
theorem expand_count {c : Char} {acc : Caps} (hcaps : ∀ x ∈ acc, x.2.count c = 0) :
    ∀ t : List TPart, (expand t acc).count c = tmplLitCount c t := by
  intro t
  induction t with
  | nil => rfl
  | cons p t ih =>
    cases p with
    | lit l => rw [expand, tmplLitCount, List.count_append, ih, Nat.add_comm]
    | grp i =>
      rw [expand, tmplLitCount, List.count_append, ih]
      cases hfind : acc.find? (fun x => x.1 == i) with
      | none => simp [lookupCap, hfind]
      | some x =>
        have : x.2.count c = 0 := hcaps x (List.mem_of_find?_eq_some hfind)
        simp [lookupCap, hfind, this]

/-- Master counting lemma: under `patOKb`, a successful match splits the
input into a consumed part holding exactly the pattern's literal
`c`-occurrences, and hands the continuation `c`-free captures. -/
theorem matchSeq_count (c : Char) :
    ∀ (r : List RElem) (s : List Char) (pend : Option (Nat × List Char)) (acc : Caps)
      (k : Caps → List Char → Option (Caps × List Char)) (out : Caps × List Char),
      patOKb c pend.isSome r = true →
      PendOK c pend s →
      (∀ x ∈ acc, x.2.count c = 0) →
      matchSeq r s pend acc k = some out →
      ∃ u rest acc2, s = u ++ rest ∧ u.count c = litCount c r ∧
        (∀ x ∈ acc2, x.2.count c = 0) ∧ k acc2 rest = some out := by
  intro r
  induction r with
  | nil =>
    intro s pend acc k out _ _ hacc hm
    exact ⟨[], s, acc, rfl, rfl, hacc, hm⟩
  | cons e r ih =>
    intro s pend acc k out hok hpend hacc hm
    cases e with
    | lit l =>
      rw [matchSeq] at hm
      by_cases hp : l.isPrefixOf s
      case neg => simp [hp] at hm
      rw [if_pos hp] at hm
      obtain ⟨s2, hs2⟩ := List.isPrefixOf_iff_prefix.1 hp
      rw [show s.drop l.length = s2 by rw [← hs2]; exact List.drop_left l s2] at hm
      rw [patOKb, Bool.and_eq_true] at hok
      obtain ⟨hok1, hok2⟩ := hok
      have hpend2 : PendOK c pend s2 := by
        intro j s0 hj
        obtain ⟨t, ht, htc⟩ := hpend j s0 hj
        refine ⟨t ++ l, by rw [ht, ← hs2]; simp, ?_⟩
        have hsome : pend.isSome = true := by rw [hj]; rfl
        rw [hsome] at hok1
        have hl : l.count c = 0 := by simpa using hok1
        rw [List.count_append, htc, hl]
      obtain ⟨u, rest, acc2, hsplit, hcnt, hcaps, hk⟩ :=
        ih s2 pend acc k out hok2 hpend2 hacc hm
      refine ⟨l ++ u, rest, acc2, ?_, ?_, hcaps, hk⟩
      · rw [← hs2, hsplit]; simp
      · rw [List.count_append, hcnt, litCount]
    | cls p =>
      cases s with
      | nil => rw [matchSeq] at hm; simp at hm
      | cons a s2 =>
        rw [matchSeq] at hm
        by_cases hp : p a
        case neg => simp [hp] at hm
        rw [if_pos hp] at hm
        rw [patOKb, Bool.and_eq_true] at hok
        obtain ⟨hok1, hok2⟩ := hok
        have hpc : p c = false := by simpa using hok1
        have hac : a ≠ c := by
          intro h
          rw [h, hpc] at hp
          cases hp
        have hpend2 : PendOK c pend s2 := by
          intro j s0 hj
          obtain ⟨t, ht, htc⟩ := hpend j s0 hj
          refine ⟨t ++ [a], by rw [ht]; simp, ?_⟩
          rw [List.count_append, htc]
          simp [List.count_singleton', hac]
        obtain ⟨u, rest, acc2, hsplit, hcnt, hcaps, hk⟩ :=
          ih s2 pend acc k out hok2 hpend2 hacc hm
        refine ⟨a :: u, rest, acc2, by rw [hsplit]; simp, ?_, hcaps, hk⟩
        rw [show litCount c (RElem.cls p :: r) = litCount c r from rfl, ← hcnt,
          List.count_cons]
        simp [hac]
    | star g p =>
      rw [matchSeq] at hm
      obtain ⟨n, hnmem, hfn⟩ := firstSome_some hm
      have hn : n ≤ countSat p s := mem_starRange hnmem
      rw [patOKb, Bool.and_eq_true] at hok
      obtain ⟨hok1, hok2⟩ := hok
      have hpc : p c = false := by simpa using hok1
      have htake : (s.take n).count c = 0 := count_zero_of_all_sat (countSat_take hn) hpc
      have hpend2 : PendOK c pend (s.drop n) := by
        intro j s0 hj
        obtain ⟨t, ht, htc⟩ := hpend j s0 hj
        refine ⟨t ++ s.take n, ?_, ?_⟩
        · rw [ht]
          conv_lhs => rw [← List.take_append_drop n s]
          simp
        · rw [List.count_append, htc, htake]
      obtain ⟨u, rest, acc2, hsplit, hcnt, hcaps, hk⟩ :=
        ih _ pend acc k out hok2 hpend2 hacc hfn
      refine ⟨s.take n ++ u, rest, acc2, ?_, ?_, hcaps, hk⟩
      · conv_lhs => rw [← List.take_append_drop n s]
        rw [hsplit]
        simp
      · rw [List.count_append, htake, hcnt]
        simp [litCount]
    | plus g p =>
      rw [matchSeq] at hm
      obtain ⟨n, hnmem, hfn⟩ := firstSome_some hm
      have hn : n ≤ countSat p s := mem_plusRange hnmem
      rw [patOKb, Bool.and_eq_true] at hok
      obtain ⟨hok1, hok2⟩ := hok
      have hpc : p c = false := by simpa using hok1
      have htake : (s.take n).count c = 0 := count_zero_of_all_sat (countSat_take hn) hpc
      have hpend2 : PendOK c pend (s.drop n) := by
        intro j s0 hj
        obtain ⟨t, ht, htc⟩ := hpend j s0 hj
        refine ⟨t ++ s.take n, ?_, ?_⟩
        · rw [ht]
          conv_lhs => rw [← List.take_append_drop n s]
          simp
        · rw [List.count_append, htc, htake]
      obtain ⟨u, rest, acc2, hsplit, hcnt, hcaps, hk⟩ :=
        ih _ pend acc k out hok2 hpend2 hacc hfn
      refine ⟨s.take n ++ u, rest, acc2, ?_, ?_, hcaps, hk⟩
      · conv_lhs => rw [← List.take_append_drop n s]
        rw [hsplit]
        simp
      · rw [List.count_append, htake, hcnt]
        simp [litCount]
    | optc a =>
      rw [patOKb, Bool.and_eq_true] at hok
      obtain ⟨hok1, hok2⟩ := hok
      have hac : a ≠ c := by simpa using hok1
      cases s with
      | nil =>
        rw [matchSeq] at hm
        obtain ⟨u, rest, acc2, hsplit, hcnt, hcaps, hk⟩ :=
          ih [] pend acc k out hok2 hpend hacc hm
        exact ⟨u, rest, acc2, hsplit, by rw [hcnt]; rfl, hcaps, hk⟩
      | cons b s2 =>
        rw [matchSeq] at hm
        by_cases hb : b = a
        · rw [if_pos hb] at hm
          cases hm2 : matchSeq r s2 pend acc k with
          | some out2 =>
            rw [hm2] at hm
            have hbc : b ≠ c := by rw [hb]; exact hac
            have hpend2 : PendOK c pend s2 := by
              intro j s0 hj
              obtain ⟨t, ht, htc⟩ := hpend j s0 hj
              refine ⟨t ++ [b], by rw [ht]; simp, ?_⟩
              rw [List.count_append, htc]
              simp [List.count_singleton', hbc]
            injection hm with hout
            rw [hout] at hm2
            obtain ⟨u, rest, acc2, hsplit, hcnt, hcaps, hk⟩ :=
              ih s2 pend acc k out hok2 hpend2 hacc hm2
            refine ⟨b :: u, rest, acc2, by rw [hsplit]; simp, ?_, hcaps, hk⟩
            rw [show litCount c (RElem.optc a :: r) = litCount c r from rfl, ← hcnt,
              List.count_cons]
            simp [hbc]
          | none =>
            rw [hm2] at hm
            have hm3 : matchSeq r (b :: s2) pend acc k = some out := hm
            obtain ⟨u, rest, acc2, hsplit, hcnt, hcaps, hk⟩ :=
              ih (b :: s2) pend acc k out hok2 hpend hacc hm3
            exact ⟨u, rest, acc2, hsplit, by rw [hcnt]; rfl, hcaps, hk⟩
        · rw [if_neg hb] at hm
          obtain ⟨u, rest, acc2, hsplit, hcnt, hcaps, hk⟩ :=
            ih (b :: s2) pend acc k out hok2 hpend hacc hm
          exact ⟨u, rest, acc2, hsplit, by rw [hcnt]; rfl, hcaps, hk⟩
    | gopen i =>
      rw [matchSeq] at hm
      rw [patOKb] at hok
      have hpend2 : PendOK c (some (i, s)) s := by
        intro j s0 hj
        injection hj with hj1
        injection hj1 with hj2 hj3
        exact ⟨[], by rw [← hj3]; simp, rfl⟩
      obtain ⟨u, rest, acc2, hsplit, hcnt, hcaps, hk⟩ :=
        ih s (some (i, s)) acc k out (by simpa using hok) hpend2 hacc hm
      exact ⟨u, rest, acc2, hsplit, by rw [hcnt]; rfl, hcaps, hk⟩
    | gclose =>
      cases pend with
      | none => rw [matchSeq] at hm; simp at hm
      | some x =>
        obtain ⟨j, s0⟩ := x
        rw [matchSeq] at hm
        obtain ⟨t, ht, htc⟩ := hpend j s0 rfl
        have htake : s0.take (s0.length - s.length) = t := by
          rw [ht]
          simp [List.take_left]
        rw [htake] at hm
        rw [patOKb] at hok
        have hacc2 : ∀ x ∈ acc ++ [(j, t)], x.2.count c = 0 := by
          intro x hx
          rcases List.mem_append.1 hx with h1 | h1
          · exact hacc x h1
          · rw [List.mem_singleton.1 h1]
            exact htc
        obtain ⟨u, rest, acc2, hsplit, hcnt, hcaps, hk⟩ :=
          ih s none (acc ++ [(j, t)]) k out (by simpa using hok) pendOK_none hacc2 hm
        exact ⟨u, rest, acc2, hsplit, by rw [hcnt]; rfl, hcaps, hk⟩

/-- Counting version of `findMatch`: the matched span carries exactly
the literal `c`-occurrences of the pattern, with `c`-free captures. -/
theorem findMatch_count {c : Char} {r : List RElem} {s pre rest : List Char} {acc : Caps}
    (hok : patOKb c false r = true)
    (hf : findMatch r s = some (pre, acc, rest)) :
    ∃ u, s = pre ++ u ++ rest ∧ u.count c = litCount c r ∧
      ∀ x ∈ acc, x.2.count c = 0 := by
  obtain ⟨mid, hs, hm⟩ := findMatch_decomp s pre acc rest hf
  obtain ⟨u, rest2, acc2, hmid, hcnt, hcaps, hk⟩ :=
    matchSeq_count c r mid none [] _ _ hok pendOK_none (by simp) hm
  simp only [Option.some.injEq, Prod.mk.injEq] at hk
  obtain ⟨hk1, hk2⟩ := hk
  refine ⟨u, ?_, hcnt, ?_⟩
  · rw [hs, hmid, hk2]
    simp
  · rw [← hk1]
    exact hcaps

/-- The fueled substitution preserves the `c`-count of the buffer when
pattern and template carry the same positive number of literal
`c`-occurrences and the pattern passes `patOKb`. -/
theorem subN_count {c : Char} {r : List RElem} {t : List TPart}
    (hok : patOKb c false r = true)
    (heq : tmplLitCount c t = litCount c r)
    (hpos : 0 < litCount c r) :
    ∀ (fuel : Nat) (s : List Char), (subN r t fuel s).count c = s.count c := by
  intro fuel
  induction fuel with
  | zero => intro s; rfl
  | succ fuel ih =>
    intro s
    cases hf : findMatch r s with
    | none => rw [subN, hf]
    | some x =>
      obtain ⟨pre, acc, rest⟩ := x
      obtain ⟨u, hs, hcnt, hcaps⟩ := findMatch_count hok hf
      have hulen : 0 < u.length := by
        cases u with
        | nil => rw [List.count_nil] at hcnt; omega
        | cons a u => simp
      have hslen : s.length = pre.length + u.length + rest.length := by
        rw [hs]
        simp [List.length_append]
        omega
      have hlen : ¬ (s.length - pre.length - rest.length = 0) := by omega
      rw [subN, hf]
      simp only [hlen, if_false, ite_false]
      rw [List.count_append, List.count_append, ih, expand_count hcaps, heq, hs,
        List.count_append, List.count_append]
      omega

/-- `re.sub` preserves the `c`-count of the buffer when the pattern's
and the template's literal `c`-counts agree and are positive, and all
classes reject `c`. -/
theorem pySub_count {c : Char} {r : List RElem} {t : List TPart}
    (hok : patOKb c false r = true)
    (heq : tmplLitCount c t = litCount c r)
    (hpos : 0 < litCount c r) (s : List Char) :
    (pySub r t s).count c = s.count c :=
  subN_count hok heq hpos (s.length + 1) s

/-- C9: `fix_string_literals` preserves the total number of single-quote
characters of every input: each of its three patterns consumes exactly
two quotes per match (the capture groups match only non-quote
characters, the whitespace classes reject quotes) and each replacement
re-inserts exactly two. -/
theorem c9_quote_count (s : List Char) :
    (fix_string_literals s).count '\'' = s.count '\'' := by
  unfold fix_string_literals
  rw [pySub_count (by decide) (by decide) (by decide),
    pySub_count (by decide) (by decide) (by decide),
    pySub_count (by decide) (by decide) (by decide)]

/-! ### Claim theorems -/

/-- C1 (code_bug): the spec requires every transform to be idempotent,
but `fix_syntax_errors` is not: on `"a // ! HARDCODED: Should use design
tokens b"` its line pass (Pattern 5) prepends `", "` to the marker on
every application, because the rewritten line still does not end in `,`,
`{` or `}` — so the second application changes the first's output again. -/
theorem c1_not_idempotent :
    fix_syntax_errors (fix_syntax_errors ("a ".data ++ mark ++ " b".data)) ≠
      fix_syntax_errors ("a ".data ++ mark ++ " b".data) := by
  decide

/-- C2: `process_file` reports a file as fixed (returns `True`) exactly
when the transformed content is not equal to the content originally
read, for any transform and any file whose write-back succeeds. -/
theorem c2_report_iff_changed (fix : List Char → List Char) (sys : Sys) (p : String)
    (content : List Char) (hread : sys.files p = some content)
    (hw : sys.writable p = true) :
    (process_file fix sys p).1 = true ↔ fix content ≠ content := by
  unfold process_file
  rw [hread]
  by_cases hc : fix content = content
  · simp [hc]
  · simp [hc, hw]

/-- Witness for C2: a concrete file whose content the transform changes. -/
theorem c2_report_iff_changed_witness :
    (Sys.mk (fun _ => some ("'a ".data ++ mark ++ "'".data)) (fun _ => true)).files "f" =
        some ("'a ".data ++ mark ++ "'".data) ∧
      ((process_file fix_string_literals
          (Sys.mk (fun _ => some ("'a ".data ++ mark ++ "'".data)) (fun _ => true)) "f").1 = true ↔
        fix_string_literals ("'a ".data ++ mark ++ "'".data) ≠ "'a ".data ++ mark ++ "'".data) :=
  ⟨rfl, c2_report_iff_changed fix_string_literals _ "f" _ rfl rfl⟩

/-- C3 (counterexample): this input contains no occurrence of the full
marker `// ! HARDCODED: Should use design tokens`, yet Pattern 7 of
`fix_all_patterns` — whose regex requires only the shorter literal
`// ! HARDCODED` — rewrites it, so the claim's premise does not make the
input clean for every rule. -/
theorem c3_counterexample :
    ¬ (mark <:+: "colors=['// ! HARDCODED#ff']".data) ∧
      fix_all_patterns "colors=['// ! HARDCODED#ff']".data ≠
        "colors=['// ! HARDCODED#ff']".data := by
  constructor <;> decide

/-- C3 (amended): every regex of the three fix functions contains a
literal that includes `// ! HARDCODED` (Pattern 7 requires nothing
more), and the line pass tests for the full marker, so every input not
containing the substring `// ! HARDCODED` is returned exactly by
`fix_string_literals`, `fix_syntax_errors` and `fix_all_patterns`. -/
theorem c3_noop_on_clean (s : List Char) (h : ¬ markShort <:+: s) :
    fix_string_literals s = s ∧ fix_syntax_errors s = s ∧ fix_all_patterns s = s :=
  ⟨fix_string_literals_id h, fix_syntax_errors_id h, fix_all_patterns_id h⟩

/-- Witness for C3's amended theorem on a concrete clean buffer. -/
theorem c3_noop_on_clean_witness :
    ¬ (markShort <:+: "const x = 1; // plain comment\n".data) ∧
      (fix_string_literals "const x = 1; // plain comment\n".data =
          "const x = 1; // plain comment\n".data ∧
        fix_syntax_errors "const x = 1; // plain comment\n".data =
          "const x = 1; // plain comment\n".data ∧
        fix_all_patterns "const x = 1; // plain comment\n".data =
          "const x = 1; // plain comment\n".data) :=
  ⟨by decide, c3_noop_on_clean _ (by decide)⟩

/-- C4 (code_bug): the scripts define no `ConfigurationError` and run no
zero-length-match validation of their matchers; the faithfully embedded
rule lists apply their substitutions directly — here Pattern 1 of
`fix_all_patterns` rewrites the input with no construction-time check
preceding any substitution. -/
theorem c4_substitutions_run_unvalidated :
    fix_all_patterns ("  color: 'red' ".data ++ mark ++ ",".data) ≠
      "  color: 'red' ".data ++ mark ++ ",".data := by
  decide

/-- Any buffer with two adjacent whitespace-separated markers contains
the marker. -/
theorem adjdup_has_mark {s : List Char} (h : AdjDup s) : mark <:+: s := by
  obtain ⟨a, w, b, _, hs⟩ := h
  rw [hs]
  exact ⟨a, w ++ mark ++ b, by simp⟩

/-- C5 (counterexample): on three adjacent markers one application of
the deduplication rule replaces only the first non-overlapping pair
(scanning resumes after the match), so the output still contains two
adjacent markers separated only by whitespace. -/
theorem c5_counterexample :
    pySub dedupPat dedupRep (mark ++ [' '] ++ mark ++ [' '] ++ mark) =
        mark ++ [' '] ++ mark ∧
      AdjDup (mark ++ [' '] ++ mark) :=
  ⟨by decide, [], [' '], [], by decide, by simp⟩

/-- C5 (amended): one application of the deduplication rule collapses a
single whitespace-separated adjacent pair of markers to one marker, and
changes nothing when the input contains no two adjacent markers
separated only by whitespace; but a longer run of adjacent markers is
not fully deduplicated in one application (see the counterexample). -/
theorem c5_dedup_amended :
    (∀ w : List Char, (∀ ch ∈ w, isSpc ch = true) →
        pySub dedupPat dedupRep (mark ++ w ++ mark) = mark) ∧
      ∀ s : List Char, ¬ AdjDup s → pySub dedupPat dedupRep s = s :=
  ⟨fun _ hw => dedup_pair hw, fun _ hs => dedup_id_of_no_adjdup hs⟩

/-- Witness for C5's amended theorem at concrete inputs. -/
theorem c5_dedup_amended_witness :
    pySub dedupPat dedupRep (mark ++ [' '] ++ mark) = mark ∧
      pySub dedupPat dedupRep "clean text".data = "clean text".data :=
  ⟨c5_dedup_amended.1 [' '] (by decide),
    c5_dedup_amended.2 "clean text".data
      (fun h => absurd (adjdup_has_mark h) (by decide))⟩

/-- C6: the rewritten buffer is persisted only when it differs from the
content read: an unchanged transform performs no write and leaves the
file system untouched, and any difference in the file system after
`process_file` implies the transform changed the content. -/
theorem c6_frame (fix : List Char → List Char) (sys : Sys) (p : String)
    (content : List Char) (hread : sys.files p = some content) :
    (fix content = content → process_file fix sys p = (false, sys)) ∧
      ∀ q, (process_file fix sys p).2.files q ≠ sys.files q → fix content ≠ content := by
  constructor
  · intro hc
    unfold process_file
    rw [hread]
    simp [hc]
  · intro q hq hc
    apply hq
    unfold process_file
    rw [hread]
    simp [hc]

/-- Witness for C6: an unchanged file is not written. -/
theorem c6_frame_witness :
    (Sys.mk (fun _ => some "abc".data) (fun _ => true)).files "f" = some "abc".data ∧
      process_file (fun x => x) (Sys.mk (fun _ => some "abc".data) (fun _ => true)) "f" =
        (false, Sys.mk (fun _ => some "abc".data) (fun _ => true)) :=
  ⟨rfl, (c6_frame (fun x => x) _ "f" _ rfl).1 rfl⟩

/-- C7: a per-file error is isolated: when the read raises (the file is
unreadable) or the write raises (the path is not writable),
`process_file` returns `False` with the file system untouched, and the
loop of `main` handles the remaining files exactly as if the failing
file were absent — no abort. -/
theorem c7_error_isolation (fix : List Char → List Char) (sys : Sys) (p : String)
    (rest : List String)
    (h : sys.files p = none ∨ sys.writable p = false) :
    process_file fix sys p = (false, sys) ∧
      main_loop fix sys (p :: rest) = main_loop fix sys rest := by
  have hpf : process_file fix sys p = (false, sys) := by
    unfold process_file
    rcases h with h | h
    · rw [h]
    · cases hf : sys.files p with
      | none => rfl
      | some content =>
        by_cases hc : fix content = content
        · simp [hc]
        · simp [hc, h]
  refine ⟨hpf, ?_⟩
  rw [main_loop]
  cases hf : sys.files p with
  | none => rfl
  | some content => simp [hpf]

/-- Witness for C7: a missing file is skipped and the loop continues. -/
theorem c7_error_isolation_witness :
    process_file fix_syntax_errors (Sys.mk (fun _ => none) (fun _ => true)) "a" =
        (false, Sys.mk (fun _ => none) (fun _ => true)) ∧
      main_loop fix_syntax_errors (Sys.mk (fun _ => none) (fun _ => true)) ["a", "b"] =
        main_loop fix_syntax_errors (Sys.mk (fun _ => none) (fun _ => true)) ["b"] :=
  c7_error_isolation fix_syntax_errors _ "a" ["b"] (Or.inl rfl)

/-- C8: the transforms and the per-file driver are deterministic pure
functions of their input: equal buffers give byte-identical outputs, and
the report of `process_file` depends only on the content read and the
writability of the path, not on the rest of the world or the path name. -/
theorem c8_deterministic (fix : List Char → List Char) (sys1 sys2 : Sys) (p1 p2 : String)
    (content : List Char)
    (h1 : sys1.files p1 = some content) (h2 : sys2.files p2 = some content)
    (hw : sys1.writable p1 = sys2.writable p2) :
    (process_file fix sys1 p1).1 = (process_file fix sys2 p2).1 ∧
      fix_string_literals content = fix_string_literals content ∧
      fix_syntax_errors content = fix_syntax_errors content ∧
      fix_all_patterns content = fix_all_patterns content := by
  refine ⟨?_, rfl, rfl, rfl⟩
  unfold process_file
  rw [h1, h2, hw]
  by_cases hc : fix content = content
  · simp [hc]
  · by_cases hb : sys2.writable p2
    · simp [hc, hb]
    · simp [hc, hb]

/-- Witness for C8: the same content behind two different paths in two
different worlds yields the same report. -/
theorem c8_deterministic_witness :
    (process_file fix_syntax_errors (Sys.mk (fun _ => some "x".data) (fun _ => true)) "a").1 =
        (process_file fix_syntax_errors
          (Sys.mk (fun q => if q = "zz" then none else some "x".data) (fun _ => true)) "b").1 ∧
      fix_string_literals "x".data = fix_string_literals "x".data ∧
      fix_syntax_errors "x".data = fix_syntax_errors "x".data ∧
      fix_all_patterns "x".data = fix_all_patterns "x".data :=
  c8_deterministic fix_syntax_errors _ _ "a" "b" "x".data rfl (by decide) rfl

/-- C10: importing `superclaude` always defines a version string: when
reading the `VERSION` file raises any exception the fallback `"4.1.5"`
is used and no exception propagates (the model is total), and a
successful read yields the stripped file text. -/
theorem c10_version_fallback :
    superclaude_version none = "4.1.5".data ∧
      ∀ s, superclaude_version (some s) = pyStrip s :=
  ⟨rfl, fun _ => rfl⟩
